import Mathlib

/-!
Verification development for the provide-seeker core (src/extension.js).

The JavaScript source is embedded shallowly:
* its five regular expressions are modelled by `RE` terms interpreted by a
  backtracking matcher `matchRe` that follows JavaScript semantics
  (leftmost match, greedy/lazy quantifiers with backtracking, capture
  groups, atomic lookahead, `matchAll` restart after each match);
* the process-wide `Map` caches become explicit association lists threaded
  through every operation in a `St` record, together with a `readLog`
  recording each underlying file-read attempt;
* the async DFS is modelled as the sequential cooperative schedule, with a
  fuel parameter and an `ok` flag marking that the fuel never ran out
  (termination of the original recursion is proved as fuel sufficiency).
-/

/-! ## Character classes used by the source regexes -/

def quoteChar1 : Char := Char.ofNat 39

def quoteChar2 : Char := Char.ofNat 34

def braceL : Char := Char.ofNat 123

def braceR : Char := Char.ofNat 125

/-- JavaScript `\s` restricted to ASCII (space, tab, LF, VT, FF, CR). -/
def wsChar (c : Char) : Bool :=
  c = (' ') || c = Char.ofNat 9 || c = Char.ofNat 10 || c = Char.ofNat 11 ||
  c = Char.ofNat 12 || c = Char.ofNat 13

/-- JavaScript `\w`: ASCII letters, digits and underscore. -/
def wordChar (c : Char) : Bool :=
  c.isAlpha || c.isDigit || c = ('_')

def isQuote (c : Char) : Bool := c = quoteChar1 || c = quoteChar2

/-! ## A small regex core covering the constructs the source uses -/

inductive RE where
  | eps : RE
  | lit : List Char → RE
  | cls : (Char → Bool) → RE
  | seqRE : RE → RE → RE
  | alt : RE → RE → RE
  | opt : RE → RE
  | starG : (Char → Bool) → RE
  | plusG : (Char → Bool) → RE
  | starL : (Char → Bool) → RE
  | plusL : (Char → Bool) → RE
  | group : Nat → RE → RE
  | look : RE → RE
  | eos : RE

/-- Capture environment: group index paired with the captured characters. -/
def Caps : Type := List (Nat × List Char)

/-- Backtracking matcher in continuation-passing style, mirroring a
JavaScript engine: alternatives and optional/greedy/lazy quantifiers are
tried in JavaScript preference order and the first overall success wins.
The fuel bounds the depth of one search path; it is sized generously by
the callers so concrete runs never exhaust it. -/
def matchRe : Nat → RE → List Char → Caps →
    (List Char → Caps → Option (List Char × Caps)) → Option (List Char × Caps)
  | 0, _, _, _, _ => none
  | fuel + 1, re, s, caps, k =>
    match re with
    | RE.eps => k s caps
    | RE.lit cs => if cs.isPrefixOf s then k (s.drop cs.length) caps else none
    | RE.cls p =>
      match s with
      | [] => none
      | c :: rest => if p c then k rest caps else none
    | RE.seqRE r1 r2 => matchRe fuel r1 s caps (fun s1 c1 => matchRe fuel r2 s1 c1 k)
    | RE.alt r1 r2 =>
      match matchRe fuel r1 s caps k with
      | some res => some res
      | none => matchRe fuel r2 s caps k
    | RE.opt r1 =>
      match matchRe fuel r1 s caps k with
      | some res => some res
      | none => k s caps
    | RE.starG p =>
      match s with
      | [] => k s caps
      | c :: rest =>
        if p c then
          match matchRe fuel (RE.starG p) rest caps k with
          | some res => some res
          | none => k s caps
        else k s caps
    | RE.plusG p =>
      match s with
      | [] => none
      | c :: rest => if p c then matchRe fuel (RE.starG p) rest caps k else none
    | RE.starL p =>
      match k s caps with
      | some res => some res
      | none =>
        match s with
        | [] => none
        | c :: rest => if p c then matchRe fuel (RE.starL p) rest caps k else none
    | RE.plusL p =>
      match s with
      | [] => none
      | c :: rest => if p c then matchRe fuel (RE.starL p) rest caps k else none
    | RE.group i r1 =>
      matchRe fuel r1 s caps (fun s1 c1 => k s1 ((i, s.take (s.length - s1.length)) :: c1))
    | RE.look r1 =>
      match matchRe fuel r1 s caps (fun s1 c1 => some (s1, c1)) with
      | some res => k s res.2
      | none => none
    | RE.eos =>
      match s with
      | [] => k s caps
      | _ => none

def seqAll (rs : List RE) : RE := rs.foldr RE.seqRE RE.eps

def strLit (s : String) : RE := RE.lit s.data

/-- Fuel that amply bounds one backtracking path on input `s`. -/
def fuelFor (s : List Char) : Nat := 2 * s.length + 200

/-- Attempt a match anchored at the start of `s`. -/
def runRe (re : RE) (s : List Char) : Option (List Char × Caps) :=
  matchRe (fuelFor s) re s [] (fun s1 c1 => some (s1, c1))

/-- One regex match: the full matched text and its capture groups. -/
structure RxM where
  m0 : List Char
  caps : Caps

def matchAllGo : Nat → RE → List Char → List RxM
  | 0, _, _ => []
  | fuel + 1, re, s =>
    match runRe re s with
    | some (rem, caps) =>
      let len := s.length - rem.length
      if len = 0 then
        match s with
        | [] => [⟨[], caps⟩]
        | _ :: rest => ⟨[], caps⟩ :: matchAllGo fuel re rest
      else ⟨s.take len, caps⟩ :: matchAllGo fuel re rem
    | none =>
      match s with
      | [] => []
      | _ :: rest => matchAllGo fuel re rest

/-- JavaScript `String.prototype.matchAll`: scan left to right, emit each
match and resume after it (advancing one position past an empty match). -/
def matchAll (re : RE) (s : List Char) : List RxM :=
  matchAllGo (s.length + 1) re s

def capGet (m : RxM) (i : Nat) : Option (List Char) :=
  m.caps.lookup i

/-! ## The five source regexes

`RX_VUE_SCRIPT_BLOCK  = /<script[^>]*>([\s\S]*?)<\/script>/g`
`RX_IMPORT_STATEMENTS = /import\s+(\x7b?\s*[\w,\s]+\x7d?)\s+from\s+['"][^'"]+['"]/g`
`RX_PROVIDE_CAPTURE   = /provide\s*\(\s*([\s\S]*?)\s*\)/g`
`RX_PROVIDE_BLOCK     = /provide\s*\(\s*[\s\S]*?\s*\)/g`
`RX_OBJECT_PAIRS      = /(['"]?[\w]+['"]?)\s*:\s*(['"]?[\w\s]+['"]?)|(['"]?[\w]+['"]?)(?=\s*[\x7d,])/g`
-/

def rxVueScriptBlock : RE :=
  seqAll [strLit ("<script"), RE.starG (fun c => c ≠ ('>')), strLit (">"),
    RE.group 1 (RE.starL (fun _ => true)), strLit ("</script>")]

def rxImportStatements : RE :=
  seqAll [strLit ("import"), RE.plusG wsChar,
    RE.group 1 (seqAll [RE.opt (RE.lit [braceL]), RE.starG wsChar,
      RE.plusG (fun c => wordChar c || c = (',') || wsChar c), RE.opt (RE.lit [braceR])]),
    RE.plusG wsChar, strLit ("from"), RE.plusG wsChar,
    RE.cls isQuote, RE.plusG (fun c => !isQuote c), RE.cls isQuote]

def rxProvideCapture : RE :=
  seqAll [strLit ("provide"), RE.starG wsChar, strLit ("("), RE.starG wsChar,
    RE.group 1 (RE.starL (fun _ => true)), RE.starG wsChar, strLit (")")]

def rxProvideBlock : RE :=
  seqAll [strLit ("provide"), RE.starG wsChar, strLit ("("), RE.starG wsChar,
    RE.starL (fun _ => true), RE.starG wsChar, strLit (")")]

def quotedTok (i : Nat) (inner : Char → Bool) : RE :=
  RE.group i (seqAll [RE.opt (RE.cls isQuote), RE.plusG inner, RE.opt (RE.cls isQuote)])

def rxObjectPairs : RE :=
  RE.alt
    (seqAll [quotedTok 1 wordChar, RE.starG wsChar, strLit (":"), RE.starG wsChar,
      quotedTok 2 (fun c => wordChar c || wsChar c)])
    (seqAll [quotedTok 3 wordChar,
      RE.look (seqAll [RE.starG wsChar, RE.cls (fun c => c = braceR || c = (','))])])

/-- The anchored regex in `_formatSingleProvideKV`:
`/^([^,]+?)\s*,\s*([\s\S]+)$/` (non-global `String.prototype.match`). -/
def rxSingleKV : RE :=
  seqAll [RE.group 1 (RE.plusL (fun c => c ≠ (','))), RE.starG wsChar, strLit (","),
    RE.starG wsChar, RE.group 2 (RE.plusG (fun _ => true)), RE.eos]

/-! ## TextScanner: the stateless parsing functions of the source -/

/-- Association-list lookup (models `Map.get`; also used for capture groups). -/
def alookup {α β : Type} [DecidableEq α] : List (α × β) → α → Option β
  | [], _ => none
  | (k, v) :: rest, key => if k = key then some v else alookup rest key

def cap1Str (m : RxM) : String := String.mk ((alookup m.caps 1).getD [])

/-- `_stripQuotes = (s = "") => s.replace(/^['"]|['"]$/g, "")`:
drop one leading and one trailing quote character if present. -/
def stripQuotesL (l : List Char) : List Char :=
  let l1 := match l with
    | c :: rest => if isQuote c then rest else l
    | [] => l
  let r := l1.reverse
  let r1 := match r with
    | c :: rest => if isQuote c then rest else r
    | [] => r
  r1.reverse

def _stripQuotes (s : String) : String := String.mk (stripQuotesL s.data)

/-- JavaScript `String.prototype.trim` (ASCII whitespace). -/
def trimL (l : List Char) : List Char :=
  ((l.dropWhile wsChar).reverse.dropWhile wsChar).reverse

def trimS (s : String) : String := String.mk (trimL s.data)

/-- JavaScript `String.prototype.includes` (substring test). -/
def hasInfixL (needle : List Char) : List Char → Bool
  | [] => needle.isPrefixOf []
  | c :: rest => needle.isPrefixOf (c :: rest) || hasInfixL needle rest

/-- JavaScript `String.prototype.split(",")`. -/
def splitOnCommaL : List Char → List (List Char)
  | [] => [[]]
  | c :: rest =>
    if c = (',') then [] :: splitOnCommaL rest
    else
      match splitOnCommaL rest with
      | h :: t => (c :: h) :: t
      | [] => [[c]]

def scriptMatches (fileContent : String) : List RxM :=
  matchAll rxVueScriptBlock fileContent.data

/-- `_extractScriptContent`: loop over all `<script ...>...</script>` matches,
appending `match[1] + "\n"` for each to an initially empty string. -/
def _extractScriptContent (fileContent : String) : String :=
  (scriptMatches fileContent).foldl (fun acc m => acc ++ cap1Str m ++ ("\n")) ("")

/-- The brace-stripped, comma-separated, trimmed, nonempty identifier list of
one `RX_IMPORT_STATEMENTS` match (from `_doesFileImportComponent`). -/
def namedImports (m : RxM) : List String :=
  ((splitOnCommaL (((alookup m.caps 1).getD []).filter
      (fun c => !(c = braceL || c = braceR)))).map
    (fun t => String.mk (trimL t))).filter (fun s => s ≠ (""))

/-- `_doesFileImportComponent`: search the extracted script body for an
imported-identifier list containing `compName`. -/
def _doesFileImportComponent (fileContent : String) (compName : String) : Bool :=
  (matchAll rxImportStatements (_extractScriptContent fileContent).data).any
    (fun m => (namedImports m).contains compName)

/-- `_parseKeyValuePairs`: all `RX_OBJECT_PAIRS` matches; key is `m[1] || m[3]`,
value is `m[2] || m[3]`, both quote-stripped. -/
def _parseKeyValuePairs (str : String) : List (String × String) :=
  (matchAll rxObjectPairs str.data).map (fun m =>
    let key := ((alookup m.caps 1).orElse (fun _ => alookup m.caps 3)).getD []
    let val := ((alookup m.caps 2).orElse (fun _ => alookup m.caps 3)).getD []
    (String.mk (stripQuotesL key), String.mk (stripQuotesL val)))

def _formatObjectProvides (inner : String) : List String :=
  (_parseKeyValuePairs inner).map (fun kv => ("- **") ++ kv.1 ++ ("**: ") ++ kv.2)

def nonValidMsg : String := "- *(Non-valid provide syntax found)*"

/-- `_formatSingleProvideKV`: split the argument on the first top-level comma
via `/^([^,]+?)\s*,\s*([\s\S]+)$/`; degrade to the sentinel line on failure. -/
def _formatSingleProvideKV (inner : String) : List String :=
  match runRe rxSingleKV inner.data with
  | some res =>
    let k := String.mk ((alookup res.2 1).getD [])
    let v := String.mk ((alookup res.2 2).getD [])
    [("- **") ++ _stripQuotes (trimS k) ++ ("**: ") ++ _stripQuotes (trimS v)]
  | none => [nonValidMsg]

def provideCaptureList (str : String) : List RxM :=
  matchAll rxProvideCapture str.data

/-- `_extractProvideContent`: re-extract every `provide(...)` argument; object
literals go through `_parseKeyValuePairs`, otherwise the two-argument split;
no match (or no surviving formatted line) yields the sentinel string.
The source wraps the object branch in `try`/`catch`, but the parse it guards
is total, so the catch branch is unreachable and is not modelled. -/
def _extractProvideContent (str : String) : String :=
  let ms := provideCaptureList str
  if ms.isEmpty then nonValidMsg
  else
    let results := (ms.map (fun m =>
      let inner := trimS (cap1Str m)
      if inner.data.head? = some braceL then _formatObjectProvides inner
      else _formatSingleProvideKV inner)).flatten
    if results.isEmpty then nonValidMsg else String.intercalate ("\n\n") results

/-- Spec-level rendering of a list of ProvideEntry pairs as the source formats
them: one markdown line per pair, joined by blank lines. -/
def renderEntries (entries : List (String × String)) : String :=
  String.intercalate ("\n\n")
    (entries.map (fun kv => ("- **") ++ kv.1 ++ ("**: ") ++ kv.2))

/-! ## FileIndex / ImportGraphIndex: the cached, stateful layer

The file universe (`vueFilesList`) and the file system are bundled in `FS`;
the three process-wide `Map` caches and a log of underlying read attempts
form the threaded state `St`. `Map.set` is modelled by `aset`
(replace-in-place or append, preserving iteration order) and `Map.delete`
by `aerase`.
-/

structure FS where
  vueFilesList : List String
  readFile : String → Option String

structure St where
  fileContentCache : List (String × String)
  providesCache : List (String × List String)
  parentsCache : List (String × List String)
  readLog : List String

def emptySt : St := ⟨[], [], [], []⟩

def aset {β : Type} (l : List (String × β)) (k : String) (v : β) : List (String × β) :=
  if (alookup l k).isSome then l.map (fun kv => if kv.1 = k then (k, v) else kv)
  else l ++ [(k, v)]

def aerase {β : Type} (l : List (String × β)) (k : String) : List (String × β) :=
  l.filter (fun kv => kv.1 ≠ k)

/-- `path.basename(p)`: the part after the last separator. -/
def afterLastSlash (l : List Char) : List Char :=
  l.foldl (fun acc c => if c = ('/') then [] else acc ++ [c]) []

def basenameOnly (p : String) : String := String.mk (afterLastSlash p.data)

/-- `path.basename(p, ".vue")`: basename with a trailing `.vue` removed
(Node keeps the name unchanged when it equals the extension). -/
def basenameVue (p : String) : String :=
  let base := afterLastSlash p.data
  let ext := (".vue").data
  if ext.reverse.isPrefixOf base.reverse && ext.length < base.length then
    String.mk (base.take (base.length - ext.length))
  else String.mk base

/-- `_getFileContent`: cached read; a failed read is cached as `""`.
Each underlying read attempt (successful or not) is appended to `readLog`. -/
def _getFileContent (fs : FS) (st : St) (filePath : String) : String × St :=
  match alookup st.fileContentCache filePath with
  | some v => (v, st)
  | none =>
    let logged := st.readLog ++ [filePath]
    match fs.readFile filePath with
    | some data =>
      (data, { st with fileContentCache := aset st.fileContentCache filePath data,
                       readLog := logged })
    | none =>
      (("") , { st with fileContentCache := aset st.fileContentCache filePath (""),
                        readLog := logged })

def provideBlockList (content : String) : List String :=
  (matchAll rxProvideBlock content.data).map (fun m => String.mk m.m0)

/-- `_getFileProvides`: cached list of `provide(...)` call texts, with the
cheap `includes("provide")` pre-filter before the regex pass. -/
def _getFileProvides (fs : FS) (st : St) (filePath : String) : List String × St :=
  match alookup st.providesCache filePath with
  | some v => (v, st)
  | none =>
    let res := _getFileContent fs st filePath
    if !(hasInfixL ("provide").data res.1.data) then
      ([], { res.2 with providesCache := aset res.2.providesCache filePath [] })
    else
      let ms := provideBlockList res.1
      (ms, { res.2 with providesCache := aset res.2.providesCache filePath ms })

/-- One step of the universe scan in `_getParentFiles`: read the file
through the content cache and keep it when its script imports the
component. -/
def scanStep (fs : FS) (componentName : String) (p : List String × St) (f : String) :
    List String × St :=
  let res := _getFileContent fs p.2 f
  (if _doesFileImportComponent res.1 componentName then p.1 ++ [f] else p.1, res.2)

/-- `_getParentFiles`: cached scan of the whole universe for files whose
script body imports `componentName`, preserving universe order. -/
def _getParentFiles (fs : FS) (st : St) (componentName : String) : List String × St :=
  match alookup st.parentsCache componentName with
  | some v => (v, st)
  | none =>
    let scan := fs.vueFilesList.foldl (scanStep fs componentName) ([], st)
    (scan.1, { scan.2 with parentsCache := aset scan.2.parentsCache componentName scan.1 })

/-! ## AncestorResolver -/

structure AncRecord where
  name : String
  source : String
  provides : List String
deriving DecidableEq, Repr

/-- Result of one (partial) DFS: visited set, threaded state, collected
records, and an `ok` flag that is false exactly when the fuel ran out. -/
structure ExpRes where
  visitedFiles : List String
  st : St
  found : List AncRecord
  ok : Bool

/-- Processing of one newly discovered importer file in
`_exploreParentsDFS`: mark it visited, fetch its provides, append an
AncestorRecord when it provides anything, then recurse (through `rec`) on
the file's own base name. -/
def visitChild (fs : FS)
    (rec : String → List String → St → List AncRecord → ExpRes)
    (filePath : String) (visitedFiles : List String) (st : St)
    (acc : List AncRecord) : ExpRes :=
  let pr := _getFileProvides fs st filePath
  let acc1 :=
    if pr.1.isEmpty then acc
    else acc ++ [⟨basenameOnly filePath, filePath, pr.1⟩]
  rec (basenameVue filePath) (filePath :: visitedFiles) pr.2 acc1

/-- The loop body of `_exploreParentsDFS` over one importer list: skip
visited files, otherwise process them through `visitChild`. The original
awaits these branches as a batch on one cooperative thread; the
sequential schedule is modelled. -/
def exploreChildren (fs : FS)
    (rec : String → List String → St → List AncRecord → ExpRes) :
    List String → List String → St → List AncRecord → ExpRes
  | [], visitedFiles, st, acc => ⟨visitedFiles, st, acc, true⟩
  | filePath :: rest, visitedFiles, st, acc =>
    if visitedFiles.contains filePath then
      exploreChildren fs rec rest visitedFiles st acc
    else
      let r := visitChild fs rec filePath visitedFiles st acc
      if r.ok then exploreChildren fs rec rest r.visitedFiles r.st r.found
      else r

/-- `_exploreParentsDFS` with fuel: each level of the original recursion
consumes one unit; `ok = false` marks fuel exhaustion (never reached with
the fuel chosen by `_findAncestorsThatProvide`, as proved below). -/
def _exploreParentsDFS (fs : FS) :
    Nat → String → List String → St → List AncRecord → ExpRes
  | 0, _, visitedFiles, st, acc => ⟨visitedFiles, st, acc, false⟩
  | fuel + 1, compName, visitedFiles, st, acc =>
    let pf := _getParentFiles fs st compName
    exploreChildren fs (_exploreParentsDFS fs fuel) pf.1 visitedFiles pf.2 acc

/-- `_findAncestorsThatProvide`: fresh per-call visited set and accumulator;
fuel `|universe| + 1` suffices because every recursive step first adds an
unvisited universe file to the visited set. -/
def _findAncestorsThatProvide (fs : FS) (st : St) (componentName : String) :
    List AncRecord × St × Bool :=
  let r := _exploreParentsDFS fs (fs.vueFilesList.length + 1) componentName [] st []
  (r.found, r.st, r.ok)

/-! ## Watcher-driven invalidation -/

/-- `invalidateFileCaches`: drop the path's content and provides entries and
the importer list cached under the path's own component name. (The
decoration disposal in the source is presentation state outside this core.) -/
def invalidateFileCaches (filePath : String) (st : St) : St :=
  { st with fileContentCache := aerase st.fileContentCache filePath,
            providesCache := aerase st.providesCache filePath,
            parentsCache := aerase st.parentsCache (basenameVue filePath) }

/-- `removeFileFromCaches`: `invalidateFileCaches`, then scrub the path from
every remaining cached importer list. -/
def removeFileFromCaches (filePath : String) (st : St) : St :=
  let st1 := invalidateFileCaches filePath st
  { st1 with parentsCache :=
      st1.parentsCache.map (fun kv => (kv.1, kv.2.filter (fun p => p ≠ filePath))) }

/-! ## Concrete file universes for the end-to-end properties -/

/-- The three-file universe exactly as the spec example writes it:
`Root.vue` provides, `Mid.vue` imports Root, `Leaf.vue` imports Mid. -/
def specFS : FS :=
  ⟨[("/Root.vue"), ("/Mid.vue"), ("/Leaf.vue")], fun p =>
    if p = ("/Root.vue") then some ("<script>provide(\x27theme\x27,\x27dark\x27)</script>")
    else if p = ("/Mid.vue") then some ("<script>import Root from \x27./Root.vue\x27</script>")
    else if p = ("/Leaf.vue") then some ("<script>import Mid from \x27./Mid.vue\x27</script>")
    else none⟩

/-- The same three files with the import edges matching the code's
parent-imports-child relation: Root imports Mid (and provides), Mid
imports Leaf. -/
def chainFS : FS :=
  ⟨[("/Root.vue"), ("/Mid.vue"), ("/Leaf.vue")], fun p =>
    if p = ("/Root.vue") then
      some ("<script>import Mid from \x27./Mid.vue\x27\nprovide(\x27theme\x27,\x27dark\x27)</script>")
    else if p = ("/Mid.vue") then some ("<script>import Leaf from \x27./Leaf.vue\x27</script>")
    else if p = ("/Leaf.vue") then some ("<script>const x = 1</script>")
    else none⟩

/-- Two-file cyclic universe: A's script imports B and provides, B's script
imports A. -/
def cycFS : FS :=
  ⟨[("/A.vue"), ("/B.vue")], fun p =>
    if p = ("/A.vue") then
      some ("<script>import B from \x27./B.vue\x27\nprovide(\x27k\x27,\x27v\x27)</script>")
    else if p = ("/B.vue") then some ("<script>import A from \x27./A.vue\x27</script>")
    else none⟩

/-- Two-file universe for the delete-scrub scenario: A's script imports B. -/
def delFS : FS :=
  ⟨[("/A.vue"), ("/B.vue")], fun p =>
    if p = ("/A.vue") then some ("<script>import B from \x27./B.vue\x27</script>")
    else if p = ("/B.vue") then some ("<script>const y = 2</script>")
    else none⟩

/-! ## Auxiliary definitions used by the claim statements -/

/-- Concatenation of a list of strings (spec-side helper). -/
def concatAll : List String → String
  | [] => ""
  | s :: rest => s ++ concatAll rest

def scriptCaps (t : String) : List String := (scriptMatches t).map cap1Str

/-- A cached state holding one importer list, for component name `A`. -/
def c6St : St := ⟨[], [], [(("A"), [("/B.vue")])], []⟩

/-- A cached state with an importer list under key `X` containing both
files, for the C4 witness. -/
def c4CacheSt : St := ⟨[], [], [(("X"), [("/B.vue"), ("/A.vue")])], []⟩

/-- Wellformedness of the importer cache: every cached importer list only
refers to files of the current universe (every entry the code itself
writes has this shape). -/
def pcacheOK (fs : FS) (st : St) : Prop :=
  ∀ name ps, alookup st.parentsCache name = some ps → ∀ p, p ∈ ps → p ∈ fs.vueFilesList

/-- Universe files not yet in the visited set. -/
def unvisitedCount (fs : FS) (visited : List String) : Nat :=
  (fs.vueFilesList.filter (fun p => !(visited.contains p))).length

/-- Induction invariant for the DFS at a given fuel: the importer cache
stays wellformed, the visited set only grows, sufficient fuel is never
exhausted, and distinctness of the visited set is preserved. -/
def dfsProp (fs : FS) (fuel : Nat) : Prop :=
  ∀ compName visited st acc, pcacheOK fs st →
    pcacheOK fs (_exploreParentsDFS fs fuel compName visited st acc).st
    ∧ (∃ ext, (_exploreParentsDFS fs fuel compName visited st acc).visitedFiles
        = ext ++ visited)
    ∧ (unvisitedCount fs visited < fuel →
        (_exploreParentsDFS fs fuel compName visited st acc).ok = true)
    ∧ (visited.Nodup →
        (_exploreParentsDFS fs fuel compName visited st acc).visitedFiles.Nodup)

/-! ## Association-list lemmas -/

theorem alookup_map_set {β : Type} (l : List (String × β)) (k : String) (v : β) :
    (alookup l k).isSome = true →
    alookup (l.map (fun kv => if kv.1 = k then (k, v) else kv)) k = some v := by
  induction l with
  | nil => intro h; simp [alookup] at h
  | cons kv rest ih =>
    obtain ⟨a, b⟩ := kv
    intro h
    rw [List.map_cons]
    by_cases hk : a = k
    · rw [show (if (a, b).1 = k then (k, v) else (a, b)) = (k, v) from if_pos hk]
      simp [alookup]
    · rw [show (if (a, b).1 = k then (k, v) else (a, b)) = (a, b) from if_neg hk]
      have h2 : (alookup rest k).isSome = true := by simpa [alookup, hk] using h
      simpa [alookup, hk] using ih h2

theorem alookup_map_set_ne {β : Type} (l : List (String × β)) (k k' : String) (v : β)
    (hne : k' ≠ k) :
    alookup (l.map (fun kv => if kv.1 = k then (k, v) else kv)) k' = alookup l k' := by
  induction l with
  | nil => rfl
  | cons kv rest ih =>
    obtain ⟨a, b⟩ := kv
    rw [List.map_cons]
    by_cases hk : a = k
    · rw [show (if (a, b).1 = k then (k, v) else (a, b)) = (k, v) from if_pos hk]
      have ha : ¬ a = k' := fun h => hne (h ▸ hk ▸ rfl)
      have hkk : ¬ k = k' := fun h => hne h.symm
      simpa [alookup, hkk, ha] using ih
    · rw [show (if (a, b).1 = k then (k, v) else (a, b)) = (a, b) from if_neg hk]
      by_cases hk' : a = k'
      · simp [alookup, hk']
      · simpa [alookup, hk'] using ih

theorem alookup_append_single {β : Type} (l : List (String × β)) (k : String) (v : β) :
    alookup l k = none → alookup (l ++ [(k, v)]) k = some v := by
  induction l with
  | nil => intro _; simp [alookup]
  | cons kv rest ih =>
    obtain ⟨a, b⟩ := kv
    intro h
    by_cases hk : a = k
    · simp [alookup, hk] at h
    · rw [List.cons_append]
      have h2 : alookup rest k = none := by simpa [alookup, hk] using h
      simpa [alookup, hk] using ih h2

theorem alookup_append_single_ne {β : Type} (l : List (String × β)) (k k' : String) (v : β)
    (hne : k' ≠ k) : alookup (l ++ [(k, v)]) k' = alookup l k' := by
  induction l with
  | nil => simp only [List.nil_append]; simp [alookup]; exact fun h => hne h.symm
  | cons kv rest ih =>
    obtain ⟨a, b⟩ := kv
    rw [List.cons_append]
    by_cases hk' : a = k'
    · simp [alookup, hk']
    · simpa [alookup, hk'] using ih

theorem alookup_aset_self {β : Type} (l : List (String × β)) (k : String) (v : β) :
    alookup (aset l k v) k = some v := by
  unfold aset
  split
  · next h => exact alookup_map_set l k v h
  · next h =>
    refine alookup_append_single l k v ?_
    cases hl : alookup l k with
    | none => rfl
    | some w => rw [hl] at h; simp at h

theorem alookup_aset_ne {β : Type} (l : List (String × β)) (k k' : String) (v : β)
    (hne : k' ≠ k) : alookup (aset l k v) k' = alookup l k' := by
  unfold aset
  split
  · exact alookup_map_set_ne l k k' v hne
  · exact alookup_append_single_ne l k k' v hne

theorem alookup_aerase_self {β : Type} (l : List (String × β)) (k : String) :
    alookup (aerase l k) k = none := by
  induction l with
  | nil => rfl
  | cons kv rest ih =>
    obtain ⟨a, b⟩ := kv
    by_cases hk : a = k
    · simpa [aerase, List.filter_cons, hk] using ih
    · simpa [aerase, List.filter_cons, hk, alookup] using ih

theorem alookup_aerase_ne {β : Type} (l : List (String × β)) (k k' : String)
    (hne : k' ≠ k) : alookup (aerase l k) k' = alookup l k' := by
  induction l with
  | nil => rfl
  | cons kv rest ih =>
    obtain ⟨a, b⟩ := kv
    by_cases hk : a = k
    · have ha : ¬ a = k' := fun h => hne (h ▸ hk ▸ rfl)
      rw [show alookup ((a, b) :: rest) k' = alookup rest k' by simp [alookup, ha]]
      simpa [aerase, List.filter_cons, hk] using ih
    · by_cases hk' : a = k'
      · simp [aerase, List.filter_cons, hk, alookup, hk', hne]
      · simp only [aerase, List.filter_cons] at ih ⊢
        simpa [hk, alookup, hk'] using ih

theorem alookup_mapval {β γ : Type} (g : β → γ) (l : List (String × β)) (k : String) :
    alookup (l.map (fun kv => (kv.1, g kv.2))) k = (alookup l k).map g := by
  induction l with
  | nil => rfl
  | cons kv rest ih =>
    obtain ⟨a, b⟩ := kv
    by_cases hk : a = k
    · simp [alookup, hk]
    · simpa [alookup, hk] using ih

/-! ## Claim C5: no recoverable argument degrades to the sentinel -/

/-- C5: `_extractProvideContent` is a total function (so it can never raise),
and on every input in which the provide-capture regex finds no match —
the empty string included — it returns the single sentinel
"non-valid provide syntax" entry instead of failing. The `catch` branch of
the source guards a total object parse and is unreachable. -/
theorem c5_never_raises_sentinel (s : String) (h : provideCaptureList s = []) :
    _extractProvideContent s = nonValidMsg := by
  unfold _extractProvideContent
  rw [h]
  rfl

/-- Witness for C5 at the empty string. -/
theorem c5_witness :
    provideCaptureList ("") = [] ∧ _extractProvideContent ("") = nonValidMsg :=
  ⟨rfl, c5_never_raises_sentinel ("") rfl⟩

/-! ## Claim C7: the two documented parse examples -/

/-- C7 counterexample: applied to the bare argument text `key, value` (as
the claim's examples pass it), `_extractProvideContent` finds no
`provide(...)` call to re-extract and returns the sentinel, not the
claimed pair list. -/
theorem c7_counterexample :
    _extractProvideContent ("key, value") = nonValidMsg
    ∧ nonValidMsg ≠ renderEntries [(("key"), ("value"))] :=
  ⟨rfl, by decide⟩

/-- C7 (amended): the documented examples hold once the argument is wrapped
in the `provide(...)` call text the function re-extracts from: the
two-argument form parses to `[("key","value")]` and the object form to
`[("a","1"),("b","two")]`, in written order. -/
theorem c7_parse_examples_amended :
    _extractProvideContent ("provide(key, value)") = renderEntries [(("key"), ("value"))]
    ∧ _extractProvideContent ("provide(\x7b a: 1, b: \x27two\x27 \x7d)")
      = renderEntries [(("a"), ("1")), (("b"), ("two"))] :=
  ⟨rfl, rfl⟩

/-! ## Claim C8: import-list membership -/

/-- C8 counterexample: a text containing `import \x7b A, B \x7d from 'x'` outside
any `<script>` block is not seen by `_doesFileImportComponent`, which
searches only the extracted script body: the claimed `true` is `false`. -/
theorem c8_counterexample :
    _doesFileImportComponent ("import \x7b A, B \x7d from \x27x\x27") ("A") = false := by rfl

/-- C8 (amended): for the statement `import \x7b A, B \x7d from 'x'` placed inside
a `<script>` block, `_doesFileImportComponent` answers `true` for the
named imports `A` and `B` and `false` for `C`. -/
theorem c8_imports_membership_amended :
    _doesFileImportComponent ("<script>import \x7b A, B \x7d from \x27x\x27</script>") ("A") = true
    ∧ _doesFileImportComponent ("<script>import \x7b A, B \x7d from \x27x\x27</script>") ("B") = true
    ∧ _doesFileImportComponent ("<script>import \x7b A, B \x7d from \x27x\x27</script>") ("C") = false :=
  ⟨rfl, rfl, rfl⟩

/-! ## Claim C9: extractScriptBody -/

/-- C9 counterexample: on `<script>x</script>` the source appends a newline
after the region, returning `"x\n"`, not the newline-free join `"x"` the
claim predicts for a single region. -/
theorem c9_counterexample :
    _extractScriptContent ("<script>x</script>") = ("x\n")
    ∧ ("x\n" : String) ≠ ("x") :=
  ⟨rfl, by decide⟩

theorem foldl_append_concatAll (f : RxM → String) (ms : List RxM) (acc : String) :
    ms.foldl (fun a m => a ++ f m ++ ("\n")) acc
      = acc ++ concatAll (ms.map (fun m => f m ++ ("\n"))) := by
  induction ms generalizing acc with
  | nil => simp [concatAll]
  | cons m rest ih =>
    rw [List.foldl_cons, ih, List.map_cons]
    simp [concatAll, String.append_assoc]

/-- C9 (amended): for every input, `_extractScriptContent` returns the inner
texts of the `<script ...>...</script>` regions in order of occurrence,
each region followed by a newline (so one trailing newline remains after
the last region, rather than the regions being merely newline-separated);
for an input with no script region the result is the empty string. -/
theorem c9_extract_script_amended (t : String) :
    _extractScriptContent t = concatAll ((scriptCaps t).map (fun s => s ++ ("\n")))
    ∧ (scriptCaps t = [] → _extractScriptContent t = ("")) := by
  have h1 : _extractScriptContent t
      = concatAll ((scriptMatches t).map (fun m => cap1Str m ++ ("\n"))) := by
    unfold _extractScriptContent
    rw [foldl_append_concatAll cap1Str (scriptMatches t) ("")]
    exact String.empty_append _
  constructor
  · rw [h1]
    unfold scriptCaps
    rw [List.map_map]
    rfl
  · intro h
    have h2 : scriptMatches t = [] := by
      unfold scriptCaps at h
      exact List.map_eq_nil_iff.mp h
    rw [h1, h2]
    rfl

/-- Witness for C9's no-region conjunct at a concrete script-free input. -/
theorem c9_witness :
    scriptCaps ("hello") = [] ∧ _extractScriptContent ("hello") = ("") :=
  ⟨rfl, (c9_extract_script_amended ("hello")).2 rfl⟩

/-! ## Claim C10: a component can be its own providing ancestor -/

/-- C10: in the cyclic universe where A's file imports B, B's file imports A
and A's script contains a provide call, `_findAncestorsThatProvide "A"`
reaches A's own file through the cycle and reports it: the traversal does
not exclude the queried component's file. -/
theorem c10_self_ancestor :
    (_findAncestorsThatProvide cycFS emptySt ("A")).1
      = [⟨("A.vue"), ("/A.vue"), [("provide(\x27k\x27,\x27v\x27)")]⟩]
    ∧ ("/A.vue") ∈ ((_findAncestorsThatProvide cycFS emptySt ("A")).1).map AncRecord.source :=
  ⟨rfl, by decide⟩

/-! ## Claim C1: the end-to-end three-file example -/

/-- C1 counterexample: on the universe exactly as the claim writes it
(Mid's script imports Root, Leaf's script imports Mid), nothing imports
`Leaf`, so `_findAncestorsThatProvide "Leaf"` returns no record at all
rather than the claimed single record for Root.vue. -/
theorem c1_counterexample :
    (_findAncestorsThatProvide specFS emptySt ("Leaf")).1 = []
    ∧ ([] : List AncRecord)
      ≠ [⟨("Root.vue"), ("/Root.vue"), [("provide(\x27theme\x27,\x27dark\x27)")]⟩] :=
  ⟨rfl, by decide⟩

/-- C1 (amended): with the import edges oriented as the code's
parent-imports-child relation (Root's script imports Mid and provides,
Mid's script imports Leaf), `_findAncestorsThatProvide "Leaf"` visits
Mid.vue then Root.vue and returns exactly one AncestorRecord, for
Root.vue, whose provide call parses to `[("theme","dark")]`; Mid.vue is
visited but absent from the result because it provides nothing. -/
theorem c1_end_to_end_amended :
    (_findAncestorsThatProvide chainFS emptySt ("Leaf")).1
      = [⟨("Root.vue"), ("/Root.vue"), [("provide(\x27theme\x27,\x27dark\x27)")]⟩]
    ∧ (_exploreParentsDFS chainFS (chainFS.vueFilesList.length + 1)
        ("Leaf") [] emptySt []).visitedFiles = [("/Root.vue"), ("/Mid.vue")]
    ∧ _extractProvideContent ("provide(\x27theme\x27,\x27dark\x27)")
      = renderEntries [(("theme"), ("dark"))] :=
  ⟨rfl, rfl, rfl⟩

/-! ## Claim C6: what the change notification invalidates -/

/-- C6 counterexample: the change handler `invalidateFileCaches` also
deletes the importer-list entry cached under the changed path's own
component name, so not every ImportGraphIndex entry is left unchanged:
after a change notification for `/A.vue`, the entry for `A` is gone. -/
theorem c6_counterexample :
    alookup (invalidateFileCaches ("/A.vue") c6St).parentsCache ("A")
      ≠ alookup c6St.parentsCache ("A") := by decide

/-- C6 (amended): the change handler invalidates the path's own content and
provides entries and, in addition, the importer-list entry for the path's
own component name; importer lists under every other component-name key —
including lists that merely reference the changed path — and the content
and provides entries of every other path are left unchanged. -/
theorem c6_onchange_frame_amended (st : St) (filePath name p2 : String) :
    alookup (invalidateFileCaches filePath st).parentsCache (basenameVue filePath) = none
    ∧ (name ≠ basenameVue filePath →
        alookup (invalidateFileCaches filePath st).parentsCache name
          = alookup st.parentsCache name)
    ∧ alookup (invalidateFileCaches filePath st).fileContentCache filePath = none
    ∧ alookup (invalidateFileCaches filePath st).providesCache filePath = none
    ∧ (p2 ≠ filePath →
        alookup (invalidateFileCaches filePath st).fileContentCache p2
            = alookup st.fileContentCache p2
        ∧ alookup (invalidateFileCaches filePath st).providesCache p2
            = alookup st.providesCache p2) := by
  refine ⟨?_, fun h => ?_, ?_, ?_, fun h => ⟨?_, ?_⟩⟩ <;>
    simp only [invalidateFileCaches] <;>
    first
      | exact alookup_aerase_self _ _
      | exact alookup_aerase_ne _ _ _ h

/-- Witness for C6 at a concrete state: an importer list under another key
survives the change notification. -/
theorem c6_witness :
    alookup (invalidateFileCaches ("/B.vue") c6St).parentsCache ("A")
      = alookup c6St.parentsCache ("A") :=
  ((c6_onchange_frame_amended c6St ("/B.vue") ("A") ("/C.vue")).2.1) (by decide)

/-! ## Claim C4: delete-scrub -/

/-- C4 counterexample: in the two-file universe where A's script imports B,
after priming the importer cache for `B` and calling
`removeFileFromCaches "/B.vue"`, a re-query of the importers of `B` scans
the (unchanged) universe again and still lists `/A.vue` — A's import
statement still names B — so the claim that it "no longer lists any path"
fails. -/
theorem c4_counterexample :
    (_getParentFiles delFS
        (removeFileFromCaches ("/B.vue") ((_getParentFiles delFS emptySt ("B")).2))
        ("B")).1 = [("/A.vue")]
    ∧ ([("/A.vue")] : List String) ≠ [] :=
  ⟨rfl, by decide⟩

/-- Lookup after the delete-scrub map over all importer lists. -/
theorem alookup_scrub (l : List (String × List String)) (k fp : String) :
    alookup (l.map (fun kv => (kv.1, kv.2.filter (fun p => p ≠ fp)))) k
      = (alookup l k).map (fun ps => ps.filter (fun p => p ≠ fp)) := by
  induction l with
  | nil => rfl
  | cons kv rest ih =>
    obtain ⟨a, b⟩ := kv
    by_cases hk : a = k
    · simp [alookup, hk]
    · simpa [alookup, hk] using ih

/-- C4 (amended): after `removeFileFromCaches p`, the deleted path `p` is
absent from every cached importer list (the scrub reaches every
component-name key), and the importer-list entry cached under `p`'s own
component name has been removed; a fresh `_getParentFiles` query then
recomputes from the file universe, which can still report importers whose
scripts name the deleted component. -/
theorem c4_delete_scrub_amended (st : St) (filePath name : String) (l : List String) :
    (alookup (removeFileFromCaches filePath st).parentsCache name = some l →
      filePath ∉ l)
    ∧ alookup (removeFileFromCaches filePath st).parentsCache (basenameVue filePath)
      = none := by
  constructor
  · intro h
    unfold removeFileFromCaches at h
    simp only at h
    rw [alookup_scrub] at h
    rcases Option.map_eq_some'.mp h with ⟨l0, _, hl⟩
    intro hmem
    rw [← hl] at hmem
    simp at hmem
  · unfold removeFileFromCaches
    simp only
    rw [alookup_scrub]
    rw [show (invalidateFileCaches filePath st).parentsCache
          = aerase st.parentsCache (basenameVue filePath) from rfl]
    rw [alookup_aerase_self]
    rfl

/-- Witness for C4 at a concrete cached state. -/
theorem c4_witness : ("/B.vue") ∉ ([("/A.vue")] : List String) :=
  (c4_delete_scrub_amended c4CacheSt ("/B.vue") ("X") ([("/A.vue")])).1 (by decide)

/-! ## Claim C3: cache idempotence -/

theorem content_hit (fs : FS) (st : St) (filePath v : String)
    (h : alookup st.fileContentCache filePath = some v) :
    _getFileContent fs st filePath = (v, st) := by
  unfold _getFileContent
  rw [h]

theorem content_cached (fs : FS) (st : St) (filePath : String) :
    alookup ((_getFileContent fs st filePath).2).fileContentCache filePath
      = some (_getFileContent fs st filePath).1 := by
  unfold _getFileContent
  cases h : alookup st.fileContentCache filePath with
  | some v => simp [h]
  | none =>
    cases hr : fs.readFile filePath with
    | some data => simp [h, hr, alookup_aset_self]
    | none => simp [h, hr, alookup_aset_self]

theorem provides_hit (fs : FS) (st : St) (filePath : String) (v : List String)
    (h : alookup st.providesCache filePath = some v) :
    _getFileProvides fs st filePath = (v, st) := by
  unfold _getFileProvides
  rw [h]

theorem provides_cached (fs : FS) (st : St) (filePath : String) :
    alookup ((_getFileProvides fs st filePath).2).providesCache filePath
      = some (_getFileProvides fs st filePath).1 := by
  unfold _getFileProvides
  cases h : alookup st.providesCache filePath with
  | some v => simp [h]
  | none =>
    simp only [h]
    split <;> simp [alookup_aset_self]

theorem parents_hit (fs : FS) (st : St) (componentName : String) (v : List String)
    (h : alookup st.parentsCache componentName = some v) :
    _getParentFiles fs st componentName = (v, st) := by
  unfold _getParentFiles
  rw [h]

theorem parents_cached (fs : FS) (st : St) (componentName : String) :
    alookup ((_getParentFiles fs st componentName).2).parentsCache componentName
      = some (_getParentFiles fs st componentName).1 := by
  unfold _getParentFiles
  cases h : alookup st.parentsCache componentName with
  | some v => simp [h]
  | none => simp [h, alookup_aset_self]

/-- C3: re-running `_getFileContent`, `_getFileProvides` or
`_getParentFiles` on the state returned by a first call, with no
intervening invalidation, returns exactly the first call's result pair:
the same value and the very same state — in particular `readLog` gains no
entry, so no second underlying read or universe scan is performed. -/
theorem c3_cache_idempotent (fs : FS) (st : St) (filePath componentName : String) :
    _getFileContent fs (_getFileContent fs st filePath).2 filePath
        = _getFileContent fs st filePath
    ∧ _getFileProvides fs (_getFileProvides fs st filePath).2 filePath
        = _getFileProvides fs st filePath
    ∧ _getParentFiles fs (_getParentFiles fs st componentName).2 componentName
        = _getParentFiles fs st componentName := by
  refine ⟨?_, ?_, ?_⟩
  · rw [content_hit fs _ filePath _ (content_cached fs st filePath)]
  · rw [provides_hit fs _ filePath _ (provides_cached fs st filePath)]
  · rw [parents_hit fs _ componentName _ (parents_cached fs st componentName)]

/-! ## Claim C2: termination and at-most-once processing -/

theorem content_parentsCache (fs : FS) (st : St) (filePath : String) :
    ((_getFileContent fs st filePath).2).parentsCache = st.parentsCache := by
  unfold _getFileContent
  cases h : alookup st.fileContentCache filePath with
  | some v => rfl
  | none => cases hr : fs.readFile filePath <;> rfl

theorem provides_parentsCache (fs : FS) (st : St) (filePath : String) :
    ((_getFileProvides fs st filePath).2).parentsCache = st.parentsCache := by
  unfold _getFileProvides
  cases h : alookup st.providesCache filePath with
  | some v => rfl
  | none =>
    simp only [h]
    split <;> simp [content_parentsCache]

theorem provides_pcacheOK (fs : FS) (st : St) (filePath : String)
    (h : pcacheOK fs st) : pcacheOK fs ((_getFileProvides fs st filePath).2) := by
  intro name ps hl
  rw [provides_parentsCache] at hl
  exact h name ps hl

theorem scan_parentsCache (fs : FS) (componentName : String) :
    ∀ (l : List String) (acc : List String × St),
      ((l.foldl (scanStep fs componentName) acc).2).parentsCache
        = acc.2.parentsCache := by
  intro l
  induction l with
  | nil => intro acc; rfl
  | cons f rest ih =>
    intro acc
    rw [List.foldl_cons, ih]
    show (scanStep fs componentName acc f).2.parentsCache = acc.2.parentsCache
    unfold scanStep
    simp [content_parentsCache]

theorem scan_mem (fs : FS) (componentName : String) :
    ∀ (l : List String) (acc : List String × St) (p : String),
      p ∈ (l.foldl (scanStep fs componentName) acc).1 → p ∈ acc.1 ∨ p ∈ l := by
  intro l
  induction l with
  | nil => intro acc p hp; exact Or.inl hp
  | cons f rest ih =>
    intro acc p hp
    rw [List.foldl_cons] at hp
    rcases ih (scanStep fs componentName acc f) p hp with h1 | h2
    · unfold scanStep at h1
      simp only at h1
      split at h1
      · rcases List.mem_append.mp h1 with ha | hf
        · exact Or.inl ha
        · rw [List.mem_singleton] at hf
          subst hf
          exact Or.inr (List.mem_cons_self _ _)
      · exact Or.inl h1
    · exact Or.inr (List.mem_cons_of_mem _ h2)

theorem getParents_spec (fs : FS) (st : St) (componentName : String)
    (h : pcacheOK fs st) :
    pcacheOK fs ((_getParentFiles fs st componentName).2)
    ∧ ∀ p, p ∈ (_getParentFiles fs st componentName).1 → p ∈ fs.vueFilesList := by
  unfold _getParentFiles
  cases hc : alookup st.parentsCache componentName with
  | some v =>
    exact ⟨h, fun p hp => h componentName v hc p hp⟩
  | none =>
    simp only [hc]
    have hmem : ∀ p, p ∈ (fs.vueFilesList.foldl (scanStep fs componentName) ([], st)).1 →
        p ∈ fs.vueFilesList := by
      intro p hp
      rcases scan_mem fs componentName fs.vueFilesList ([], st) p hp with h1 | h2
      · cases h1
      · exact h2
    refine ⟨?_, hmem⟩
    intro name ps hl p hp
    simp only [scan_parentsCache] at hl
    by_cases hn : name = componentName
    · subst hn
      rw [alookup_aset_self] at hl
      cases hl
      exact hmem p hp
    · rw [alookup_aset_ne _ _ _ _ hn] at hl
      exact h name ps hl p hp

theorem filter_length_mono {α : Type} (p q : α → Bool)
    (h : ∀ x, p x = true → q x = true) :
    ∀ l : List α, (l.filter p).length ≤ (l.filter q).length := by
  intro l
  induction l with
  | nil => exact Nat.le_refl 0
  | cons x rest ih =>
    by_cases hp : p x = true
    · rw [List.filter_cons, if_pos hp, List.filter_cons, if_pos (h x hp)]
      simpa using Nat.succ_le_succ ih
    · rw [List.filter_cons, if_neg hp, List.filter_cons]
      split
      · simpa using Nat.le_succ_of_le ih
      · exact ih

theorem filter_length_lt {α : Type} (p q : α → Bool)
    (h : ∀ x, p x = true → q x = true) (x0 : α) (hp : p x0 = false)
    (hq : q x0 = true) :
    ∀ l : List α, x0 ∈ l → (l.filter p).length < (l.filter q).length := by
  intro l
  induction l with
  | nil => intro hx; cases hx
  | cons x rest ih =>
    intro hx
    rcases List.mem_cons.mp hx with hxx | hx'
    · subst hxx
      rw [List.filter_cons, if_neg (by simp [hp]), List.filter_cons, if_pos hq]
      simpa using Nat.lt_succ_of_le (filter_length_mono p q h rest)
    · by_cases hpx : p x = true
      · rw [List.filter_cons, if_pos hpx, List.filter_cons, if_pos (h x hpx)]
        simpa using Nat.succ_lt_succ (ih hx')
      · rw [List.filter_cons, if_neg hpx, List.filter_cons]
        split
        · simpa using Nat.lt_succ_of_lt (ih hx')
        · exact ih hx'

theorem contains_eq_mem_decide (l : List String) (x : String) :
    l.contains x = decide (x ∈ l) := by
  simp [List.contains]

theorem unvisited_mono (fs : FS) (visited v2 : List String)
    (hsub : ∀ x, x ∈ visited → x ∈ v2) :
    unvisitedCount fs v2 ≤ unvisitedCount fs visited := by
  apply filter_length_mono
  intro x hx
  rw [Bool.not_eq_true', contains_eq_mem_decide] at hx ⊢
  exact decide_eq_false (fun hm => of_decide_eq_false hx (hsub x hm))

theorem unvisited_strict (fs : FS) (visited : List String) (fp : String)
    (hin : fp ∈ fs.vueFilesList) (hnv : visited.contains fp = false) :
    unvisitedCount fs (fp :: visited) < unvisitedCount fs visited := by
  refine filter_length_lt _ _ ?_ fp ?_ ?_ fs.vueFilesList hin
  · intro x hx
    rw [Bool.not_eq_true', contains_eq_mem_decide] at hx ⊢
    refine decide_eq_false (fun hm => of_decide_eq_false hx ?_)
    exact List.mem_cons_of_mem _ hm
  · simp
  · simpa using hnv

theorem kids_prop (fs : FS) (fuel : Nat) (hrec : dfsProp fs fuel) :
    ∀ ps visited st acc, pcacheOK fs st → (∀ p, p ∈ ps → p ∈ fs.vueFilesList) →
      pcacheOK fs (exploreChildren fs (_exploreParentsDFS fs fuel) ps visited st acc).st
      ∧ (∃ ext, (exploreChildren fs (_exploreParentsDFS fs fuel) ps visited st acc).visitedFiles
          = ext ++ visited)
      ∧ (unvisitedCount fs visited ≤ fuel →
          (exploreChildren fs (_exploreParentsDFS fs fuel) ps visited st acc).ok = true)
      ∧ (visited.Nodup →
          (exploreChildren fs (_exploreParentsDFS fs fuel) ps visited st acc).visitedFiles.Nodup) := by
  intro ps
  induction ps with
  | nil =>
    intro visited st acc hpc hmem
    exact ⟨hpc, ⟨[], rfl⟩, fun _ => rfl, fun h => h⟩
  | cons fp rest ih =>
    intro visited st acc hpc hmem
    have hroot : exploreChildren fs (_exploreParentsDFS fs fuel) (fp :: rest) visited st acc
        = (if visited.contains fp = true then
            exploreChildren fs (_exploreParentsDFS fs fuel) rest visited st acc
          else
            (if (visitChild fs (_exploreParentsDFS fs fuel) fp visited st acc).ok = true then
              exploreChildren fs (_exploreParentsDFS fs fuel) rest
                (visitChild fs (_exploreParentsDFS fs fuel) fp visited st acc).visitedFiles
                (visitChild fs (_exploreParentsDFS fs fuel) fp visited st acc).st
                (visitChild fs (_exploreParentsDFS fs fuel) fp visited st acc).found
            else visitChild fs (_exploreParentsDFS fs fuel) fp visited st acc)) := rfl
    by_cases hv : visited.contains fp = true
    · rw [hroot, if_pos hv]
      exact ih visited st acc hpc (fun p hp => hmem p (List.mem_cons_of_mem _ hp))
    · have hv' : visited.contains fp = false := by simpa using hv
      have hfp : fp ∈ fs.vueFilesList := hmem fp (List.mem_cons_self _ _)
      have hfpnv : fp ∉ visited := by
        rw [contains_eq_mem_decide] at hv'
        exact of_decide_eq_false hv'
      have hpcpr : pcacheOK fs ((_getFileProvides fs st fp).2) :=
        provides_pcacheOK fs st fp hpc
      have hvc : visitChild fs (_exploreParentsDFS fs fuel) fp visited st acc
          = _exploreParentsDFS fs fuel (basenameVue fp) (fp :: visited)
              ((_getFileProvides fs st fp).2)
              (if ((_getFileProvides fs st fp).1.isEmpty) then acc
               else acc ++ [⟨basenameOnly fp, fp, (_getFileProvides fs st fp).1⟩]) := rfl
      obtain ⟨hpc1, ⟨ext1, hext1⟩, hok1, hnd1⟩ := hrec (basenameVue fp) (fp :: visited)
        ((_getFileProvides fs st fp).2)
        (if ((_getFileProvides fs st fp).1.isEmpty) then acc
         else acc ++ [⟨basenameOnly fp, fp, (_getFileProvides fs st fp).1⟩]) hpcpr
      rw [← hvc] at hpc1 hext1 hok1 hnd1
      by_cases hro : (visitChild fs (_exploreParentsDFS fs fuel) fp visited st acc).ok = true
      · rw [hroot, if_neg hv, if_pos hro]
        obtain ⟨hpc2, ⟨ext2, hext2⟩, hok2, hnd2⟩ := ih
          (visitChild fs (_exploreParentsDFS fs fuel) fp visited st acc).visitedFiles
          (visitChild fs (_exploreParentsDFS fs fuel) fp visited st acc).st
          (visitChild fs (_exploreParentsDFS fs fuel) fp visited st acc).found
          hpc1 (fun p hp => hmem p (List.mem_cons_of_mem _ hp))
        refine ⟨hpc2, ⟨ext2 ++ ext1 ++ [fp], ?_⟩, ?_, ?_⟩
        · rw [hext2, hext1]
          simp
        · intro hcnt
          apply hok2
          apply Nat.le_of_lt
          calc unvisitedCount fs
                (visitChild fs (_exploreParentsDFS fs fuel) fp visited st acc).visitedFiles
              ≤ unvisitedCount fs (fp :: visited) := by
                apply unvisited_mono
                intro x hx
                rw [hext1]
                exact List.mem_append_right _ hx
            _ < unvisitedCount fs visited := unvisited_strict fs visited fp hfp hv'
            _ ≤ fuel := hcnt
        · intro hnd
          exact hnd2 (hnd1 (List.nodup_cons.mpr ⟨hfpnv, hnd⟩))
      · rw [hroot, if_neg hv, if_neg hro]
        refine ⟨hpc1, ⟨ext1 ++ [fp], ?_⟩, ?_, ?_⟩
        · rw [hext1]
          simp
        · intro hcnt
          apply hok1
          calc unvisitedCount fs (fp :: visited)
              < unvisitedCount fs visited := unvisited_strict fs visited fp hfp hv'
            _ ≤ fuel := hcnt
        · intro hnd
          exact hnd1 (List.nodup_cons.mpr ⟨hfpnv, hnd⟩)

theorem dfs_prop_all (fs : FS) : ∀ fuel, dfsProp fs fuel := by
  intro fuel
  induction fuel with
  | zero =>
    intro comp visited st acc hpc
    exact ⟨hpc, ⟨[], rfl⟩, fun h => absurd h (Nat.not_lt_zero _), fun h => h⟩
  | succ fuel ih =>
    intro comp visited st acc hpc
    have hgp := getParents_spec fs st comp hpc
    have hkids := kids_prop fs fuel ih (_getParentFiles fs st comp).1 visited
      ((_getParentFiles fs st comp).2) acc hgp.1 hgp.2
    have hstep : _exploreParentsDFS fs (fuel + 1) comp visited st acc
        = exploreChildren fs (_exploreParentsDFS fs fuel) (_getParentFiles fs st comp).1
            visited ((_getParentFiles fs st comp).2) acc := rfl
    rw [hstep]
    obtain ⟨h1, h2, h3, h4⟩ := hkids
    exact ⟨h1, h2, fun hlt => h3 (Nat.lt_succ_iff.mp hlt), h4⟩

/-- C2: for every finite universe and every state whose cached importer
lists only mention universe files (as every list the code writes does),
`_findAncestorsThatProvide` runs to completion — the fuel
`|universe| + 1`, one unit per recursion level, is never exhausted,
because each level first inserts a fresh universe file into the per-call
visited set, which strictly grows — and the visited set it builds is
duplicate-free: each file is marked visited, has its provides fetched and
its importers expanded at most once per call. This covers in particular
the cyclic universe where A's file imports B and B's file imports A. -/
theorem c2_termination_at_most_once (fs : FS) (st : St) (compName : String)
    (h : pcacheOK fs st) :
    (_findAncestorsThatProvide fs st compName).2.2 = true
    ∧ (_exploreParentsDFS fs (fs.vueFilesList.length + 1)
        compName [] st []).visitedFiles.Nodup := by
  obtain ⟨_, _, hok, hnd⟩ :=
    dfs_prop_all fs (fs.vueFilesList.length + 1) compName [] st [] h
  constructor
  · show (_exploreParentsDFS fs (fs.vueFilesList.length + 1) compName [] st []).ok = true
    apply hok
    have hle : unvisitedCount fs [] ≤ fs.vueFilesList.length := by
      unfold unvisitedCount
      exact List.length_filter_le _ _
    exact Nat.lt_succ_of_le hle
  · exact hnd List.nodup_nil

/-- Witness for C2 on the concrete cyclic universe with an empty cache. -/
theorem c2_witness :
    (_findAncestorsThatProvide cycFS emptySt ("A")).2.2 = true :=
  (c2_termination_at_most_once cycFS emptySt ("A") (by
    intro name ps hlook p hp
    simp [emptySt, alookup] at hlook)).1
